import Mathlib

/-!
Verification of the `board` crate: a sparse 2D grid built from `Position`
(signed integer coordinates with the derived lexicographic total order),
`Dimension` (an axis-aligned rectangle given by `origin` and `max`, with an
ordered iterator), and `Board` (a sparse map from positions to values,
optionally resizeable).

Machine integers: `isize` is modelled as `Int` and `usize` as `Nat`; the
`as usize` / `as isize` casts are modelled explicitly as wrapping
conversions modulo `2^64` (release-mode Rust semantics), since the spec's
numerical claims are about exactly that wrapping.
-/

/-- `Position` from `src/position.rs`: two signed integer fields. -/
structure Position where
  x : Int
  y : Int
deriving DecidableEq, Repr

/-- The derived `Ord` on `Position` compares lexicographically:
`x` first, then `y`.  This is Rust's `#[derive(PartialOrd, Ord)]`
on the struct with fields in declaration order. -/
def Position.lexLt (a b : Position) : Prop :=
  a.x < b.x ∨ (a.x = b.x ∧ a.y < b.y)

/-- The derived `<=` on `Position` (lexicographic). -/
def Position.lexLe (a b : Position) : Prop :=
  a.x < b.x ∨ (a.x = b.x ∧ a.y ≤ b.y)

instance (a b : Position) : Decidable (a.lexLt b) :=
  inferInstanceAs (Decidable (a.x < b.x ∨ (a.x = b.x ∧ a.y < b.y)))

instance (a b : Position) : Decidable (a.lexLe b) :=
  inferInstanceAs (Decidable (a.x < b.x ∨ (a.x = b.x ∧ a.y ≤ b.y)))

/-- `Position::add` (component-wise). -/
def Position.add (a b : Position) : Position :=
  ⟨a.x + b.x, a.y + b.y⟩

/-- `Position::neg` (component-wise). -/
def Position.neg (a : Position) : Position :=
  ⟨-a.x, -a.y⟩

/-- `Position::sub`: `a + (-b)`. -/
def Position.sub (a b : Position) : Position :=
  a.add b.neg

/-- The Rust `as isize` cast of a `usize` value (wrapping reinterpretation
of the 64-bit pattern). -/
def isizeOfUsize (n : Nat) : Int :=
  if n < 2 ^ 63 then (n : Int) else (n : Int) - 2 ^ 64

/-- The Rust `as usize` cast of an `isize` value (wrapping reinterpretation
of the 64-bit pattern). -/
def usizeOfIsize (i : Int) : Nat :=
  (i % (2 ^ 64 : Int)).toNat

/-- `Dimension` from `src/dimension.rs`: origin and max corner. -/
structure Dimension where
  origin : Position
  max : Position
deriving DecidableEq, Repr

/-- `Dimension::from_origin`: panics (modelled as `none`) when width or
height is 0, otherwise `max = origin + (width - 1, height - 1)` via the
`Add<(usize, usize)>` impl on `Position`. -/
def Dimension.from_origin (origin : Position) (width height : Nat) : Option Dimension :=
  if width = 0 ∨ height = 0 then
    none
  else
    some ⟨origin, ⟨origin.x + isizeOfUsize (width - 1), origin.y + isizeOfUsize (height - 1)⟩⟩

/-- `Dimension::new`: `from_origin` with the default position `(0, 0)`. -/
def Dimension.new (width height : Nat) : Option Dimension :=
  Dimension.from_origin ⟨0, 0⟩ width height

/-- `Dimension::width`: `(self.max.x - self.origin.x + 1) as usize`. -/
def Dimension.width (d : Dimension) : Nat :=
  usizeOfIsize (d.max.x - d.origin.x + 1)

/-- `Dimension::height`: `(self.max.y - self.origin.y + 1) as usize`. -/
def Dimension.height (d : Dimension) : Nat :=
  usizeOfIsize (d.max.y - d.origin.y + 1)

/-- `Dimension::field_amount`: `self.width() * self.height()` as a
`usize` product (wrapping modulo `2^64`). -/
def Dimension.field_amount (d : Dimension) : Nat :=
  (d.width * d.height) % 2 ^ 64

/-- `Dimension::contains_position`:
`self.origin <= position && position <= self.max` under the derived
(lexicographic) order on `Position`. -/
def Dimension.contains_position (d : Dimension) (position : Position) : Bool :=
  decide (d.origin.lexLe position) && decide (position.lexLe d.max)

/-- `Dimension::resize`: `if position < self.origin { self.origin = position }`
then `if position > self.max { self.max = position }`, comparisons in the
derived (lexicographic) order. -/
def Dimension.resize (d : Dimension) (position : Position) : Dimension :=
  { origin := if position.lexLt d.origin then position else d.origin,
    max := if d.max.lexLt position then position else d.max }

/-- State of `DimensionIterator`. -/
structure DimIter where
  origin : Position
  current_position : Option Position
  max_position : Position
deriving DecidableEq, Repr

/-- `DimensionIterator::new`. -/
def DimIter.new (d : Dimension) : DimIter :=
  ⟨d.origin, none, d.max⟩

/-- `DimensionIterator::next`: returns the yielded position together with
the successor state, or `none` when the iterator is exhausted, mirroring
the four match arms of the source in order. -/
def DimIter.next (s : DimIter) : Option (Position × DimIter) :=
  let x_max := s.max_position.x
  let y_max := s.max_position.y
  match s.current_position with
  | none => some (s.origin, { s with current_position := some s.origin })
  | some pos =>
    if pos = s.max_position then
      none
    else if pos.y = y_max ∧ pos.x < x_max then
      some (⟨pos.x + 1, 0⟩, { s with current_position := some ⟨pos.x + 1, 0⟩ })
    else
      some (⟨pos.x, pos.y + 1⟩, { s with current_position := some ⟨pos.x, pos.y + 1⟩ })

/-- Run the iterator for up to `fuel` steps, collecting the yielded
positions; `none` when the iterator did not signal exhaustion within
`fuel` steps (the source iterator can diverge), `some l` when it yielded
exactly the list `l` and then stopped. -/
def DimIter.collect : Nat → DimIter → Option (List Position)
  | 0, _ => none
  | fuel + 1, s =>
    match s.next with
    | none => some []
    | some (p, s') =>
      match DimIter.collect fuel s' with
      | none => none
      | some l => some (p :: l)

/-- The complete output sequence of `Dimension::iter()` when it terminates
within `fuel` steps. -/
def Dimension.iterRun (d : Dimension) (fuel : Nat) : Option (List Position) :=
  DimIter.collect fuel (DimIter.new d)

/-- `Board<T>` from `src/lib.rs`; the `HashMap<Position, T>` is modelled
extensionally as a function `Position → Option T`. -/
structure Board (T : Type) where
  resizeable : Bool
  dimension : Dimension
  values : Position → Option T

/-- `Board::new`: fixed-size board, empty mapping. -/
def Board.new {T : Type} (dimension : Dimension) : Board T :=
  ⟨false, dimension, fun _ => none⟩

/-- `Board::new_resizeable`: resizeable board, empty mapping. -/
def Board.new_resizeable {T : Type} (dimension : Dimension) : Board T :=
  ⟨true, dimension, fun _ => none⟩

/-- `Board::clear`: `self.values.clear()`. -/
def Board.clear {T : Type} (b : Board T) : Board T :=
  { b with values := fun _ => none }

/-- `Board::get_field`: `self.values.get(&position)`. -/
def Board.get_field {T : Type} (b : Board T) (position : Position) : Option T :=
  b.values position

/-- `Board::set_field`: match on `(self.resizeable, self.dimension.contains_position(position))`;
`(_, true)` inserts, `(true, false)` resizes then inserts, otherwise no-op. -/
def Board.set_field {T : Type} (b : Board T) (position : Position) (value : T) : Board T :=
  match b.resizeable, b.dimension.contains_position position with
  | _, true =>
    { b with values := fun q => if q = position then some value else b.values q }
  | true, false =>
    { b with
      dimension := b.dimension.resize position,
      values := fun q => if q = position then some value else b.values q }
  | false, false => b

/-- `Board::clear_field`: `self.values.remove(&position)`; returns the
removed value and the updated board. -/
def Board.clear_field {T : Type} (b : Board T) (position : Position) : Option T × Board T :=
  (b.values position, { b with values := fun q => if q = position then none else b.values q })

/-- A mutation of the board's public mutating API. -/
inductive BoardOp (T : Type) where
  | setF : Position → T → BoardOp T
  | clearF : Position → BoardOp T
  | clearAll : BoardOp T

/-- Apply one mutation. -/
def Board.applyOp {T : Type} (b : Board T) : BoardOp T → Board T
  | .setF p v => b.set_field p v
  | .clearF p => (b.clear_field p).2
  | .clearAll => b.clear

/-- Apply a sequence of mutations in order. -/
def Board.applyOps {T : Type} (b : Board T) (ops : List (BoardOp T)) : Board T :=
  ops.foldl Board.applyOp b

/-- Invariant of a reachable board: the dimension is lexicographically
ordered and every stored key is accepted by `contains_position`. -/
def BoardInv {T : Type} (b : Board T) : Prop :=
  b.dimension.origin.lexLe b.dimension.max ∧
  ∀ p v, b.values p = some v → b.dimension.contains_position p = true

/-- The adjacency actually produced by `DimensionIterator::next` with max
corner `m`: either y advances by 1 in the same column, or — once y has
reached `m.y` — x advances by 1 and y restarts at 0. -/
def iterColumnAdj (m : Position) (p q : Position) : Prop :=
  (q.x = p.x ∧ q.y = p.y + 1) ∨ (p.y = m.y ∧ q.x = p.x + 1 ∧ q.y = 0)

instance (m p q : Position) : Decidable (iterColumnAdj m p q) :=
  inferInstanceAs (Decidable ((q.x = p.x ∧ q.y = p.y + 1) ∨ (p.y = m.y ∧ q.x = p.x + 1 ∧ q.y = 0)))

/-- The row-major adjacency relation asserted by the spec (section 4.2 and
glossary): within a row, x advances by 1 at fixed y; a new row starts at
`origin.x` with y advanced by 1 only after x has reached `max.x`. -/
def specRowMajorAdj (d : Dimension) (p q : Position) : Prop :=
  (q.y = p.y ∧ q.x = p.x + 1) ∨ (p.x = d.max.x ∧ q.x = d.origin.x ∧ q.y = p.y + 1)

instance (d : Dimension) (p q : Position) : Decidable (specRowMajorAdj d p q) :=
  inferInstanceAs
    (Decidable ((q.y = p.y ∧ q.x = p.x + 1) ∨ (p.x = d.max.x ∧ q.x = d.origin.x ∧ q.y = p.y + 1)))

/-- The iteration sequence of the 3x3 dimension at the origin. -/
def pos33List : List Position :=
  [⟨0, 0⟩, ⟨0, 1⟩, ⟨0, 2⟩, ⟨1, 0⟩, ⟨1, 1⟩, ⟨1, 2⟩, ⟨2, 0⟩, ⟨2, 1⟩, ⟨2, 2⟩]

/-! ### Basic facts about the derived lexicographic order -/

theorem Position.lexLe_refl (a : Position) : a.lexLe a := by
  unfold Position.lexLe; omega

theorem Position.lexLe_trans {a b c : Position} (h1 : a.lexLe b) (h2 : b.lexLe c) :
    a.lexLe c := by
  unfold Position.lexLe at *; omega

theorem Position.lexLt_le {a b : Position} (h : a.lexLt b) : a.lexLe b := by
  unfold Position.lexLt at h; unfold Position.lexLe; omega

theorem Position.le_of_not_lexLt {a b : Position} (h : ¬ a.lexLt b) : b.lexLe a := by
  unfold Position.lexLt at h; unfold Position.lexLe; omega

theorem Dimension.contains_position_iff (d : Dimension) (p : Position) :
    d.contains_position p = true ↔ d.origin.lexLe p ∧ p.lexLe d.max := by
  simp [Dimension.contains_position]

/-- A position inside the per-axis bounding box is in particular inside the
lexicographic range, so `contains_position` accepts it. -/
theorem Dimension.box_contains (d : Dimension) (p : Position)
    (h : d.origin.x ≤ p.x ∧ p.x ≤ d.max.x ∧ d.origin.y ≤ p.y ∧ p.y ≤ d.max.y) :
    d.contains_position p = true := by
  rw [Dimension.contains_position_iff]
  unfold Position.lexLe
  omega

/-! ### Facts about `Dimension::resize` -/

theorem Dimension.resize_origin_le (d : Dimension) (p : Position) :
    (d.resize p).origin.lexLe d.origin := by
  simp only [Dimension.resize]
  split
  · exact Position.lexLt_le ‹_›
  · exact Position.lexLe_refl _

theorem Dimension.le_resize_max (d : Dimension) (p : Position) :
    d.max.lexLe (d.resize p).max := by
  simp only [Dimension.resize]
  split
  · exact Position.lexLt_le ‹_›
  · exact Position.lexLe_refl _

theorem Dimension.resize_lex_inv (d : Dimension) (p : Position)
    (h : d.origin.lexLe d.max) : (d.resize p).origin.lexLe (d.resize p).max := by
  simp only [Dimension.resize]
  split <;> split <;> unfold Position.lexLt Position.lexLe at * <;> omega

theorem Dimension.resize_contains_self (d : Dimension) (p : Position) :
    (d.resize p).contains_position p = true := by
  rw [Dimension.contains_position_iff]
  simp only [Dimension.resize]
  constructor
  · split
    · exact Position.lexLe_refl _
    · exact Position.le_of_not_lexLt ‹_›
  · split
    · exact Position.lexLe_refl _
    · exact Position.le_of_not_lexLt ‹_›

theorem Dimension.resize_contains_mono (d : Dimension) (p q : Position)
    (h : d.contains_position q = true) : (d.resize p).contains_position q = true := by
  rw [Dimension.contains_position_iff] at h ⊢
  exact ⟨Position.lexLe_trans (Dimension.resize_origin_le d p) h.1,
    Position.lexLe_trans h.2 (Dimension.le_resize_max d p)⟩

/-! ### The board invariant -/

theorem BoardInv.set_field {T : Type} {b : Board T} (p : Position) (v : T)
    (h : BoardInv b) : BoardInv (b.set_field p v) := by
  obtain ⟨hlex, hkeys⟩ := h
  unfold Board.set_field
  split
  · refine ⟨hlex, fun q w hq => ?_⟩
    by_cases hqp : q = p
    · subst hqp; assumption
    · simp only [if_neg hqp] at hq
      exact hkeys q w hq
  · refine ⟨Dimension.resize_lex_inv _ _ hlex, fun q w hq => ?_⟩
    by_cases hqp : q = p
    · subst hqp
      exact Dimension.resize_contains_self _ _
    · simp only [if_neg hqp] at hq
      exact Dimension.resize_contains_mono _ _ _ (hkeys q w hq)
  · exact ⟨hlex, hkeys⟩

theorem BoardInv.clear_field {T : Type} {b : Board T} (p : Position)
    (h : BoardInv b) : BoardInv (b.clear_field p).2 := by
  obtain ⟨hlex, hkeys⟩ := h
  refine ⟨hlex, fun q w hq => ?_⟩
  simp only [Board.clear_field] at hq
  by_cases hqp : q = p
  · simp [hqp] at hq
  · simp only [if_neg hqp] at hq
    exact hkeys q w hq

theorem BoardInv.clear {T : Type} {b : Board T} (h : BoardInv b) :
    BoardInv b.clear := by
  exact ⟨h.1, fun q w hq => by simp [Board.clear] at hq⟩

theorem BoardInv.applyOp {T : Type} {b : Board T} (op : BoardOp T)
    (h : BoardInv b) : BoardInv (b.applyOp op) := by
  cases op with
  | setF p v => exact h.set_field p v
  | clearF p => exact h.clear_field p
  | clearAll => exact h.clear

theorem BoardInv.applyOps {T : Type} {b : Board T} (ops : List (BoardOp T))
    (h : BoardInv b) : BoardInv (b.applyOps ops) := by
  induction ops generalizing b with
  | nil => exact h
  | cons op ops ih => exact ih (h.applyOp op)

theorem BoardInv.initial {T : Type} (d : Dimension) (rz : Bool)
    (h : d.origin.lexLe d.max) :
    BoardInv (if rz then Board.new_resizeable (T := T) d else Board.new d) := by
  cases rz <;> exact ⟨h, fun p v hv => by simp [Board.new, Board.new_resizeable] at hv⟩

/-! ### Iteration order -/

/-- Every successful run of the iterator from a state whose current
position is `p` yields a list that extends `p` by `iterColumnAdj`-steps. -/
theorem DimIter.collect_chain (fuel : Nat) :
    ∀ (s : DimIter) (p : Position) (l : List Position),
      s.current_position = some p → DimIter.collect fuel s = some l →
      List.Chain' (iterColumnAdj s.max_position) (p :: l) := by
  induction fuel with
  | zero =>
    intro s p l hp hc
    simp [DimIter.collect] at hc
  | succ n ih =>
    intro s p l hp hc
    obtain ⟨o, cur, m⟩ := s
    dsimp only at hp
    subst hp
    simp only [DimIter.collect, DimIter.next] at hc
    by_cases hpm : p = (⟨o, some p, m⟩ : DimIter).max_position
    · simp only [if_pos hpm] at hc
      simp only [Option.some.injEq] at hc
      subst hc
      simp
    · simp only [if_neg hpm] at hc
      by_cases hcol : p.y = m.y ∧ p.x < m.x
      · simp only [if_pos hcol] at hc
        cases hcoll : DimIter.collect n ⟨o, some ⟨p.x + 1, 0⟩, m⟩ with
        | none => rw [hcoll] at hc; simp at hc
        | some tl =>
          rw [hcoll] at hc
          simp only [Option.some.injEq] at hc
          subst hc
          exact List.chain'_cons.mpr
            ⟨Or.inr ⟨hcol.1, rfl, rfl⟩, ih ⟨o, some ⟨p.x + 1, 0⟩, m⟩ _ tl rfl hcoll⟩
      · simp only [if_neg hcol] at hc
        cases hcoll : DimIter.collect n ⟨o, some ⟨p.x, p.y + 1⟩, m⟩ with
        | none => rw [hcoll] at hc; simp at hc
        | some tl =>
          rw [hcoll] at hc
          simp only [Option.some.injEq] at hc
          subst hc
          exact List.chain'_cons.mpr
            ⟨Or.inl ⟨rfl, rfl⟩, ih ⟨o, some ⟨p.x, p.y + 1⟩, m⟩ _ tl rfl hcoll⟩

/-! ### The claims -/

/-- Claim C1 (failing input): on the dimension with origin (0,0) and max (2,2),
`contains_position` returns `true` for the position (1,5), whose x-coordinate is
inside `[origin.x, max.x]` but whose y-coordinate exceeds `max.y`; the claim
requires `false` there.  The source tests `origin <= p && p <= max` in the
lexicographic total order instead of per axis. -/
theorem c1_contains_position_failing_input :
    Dimension.contains_position ⟨⟨0, 0⟩, ⟨2, 2⟩⟩ ⟨1, 5⟩ = true ∧
      (⟨⟨0, 0⟩, ⟨2, 2⟩⟩ : Dimension).origin.x ≤ (1 : Int) ∧
      (1 : Int) ≤ (⟨⟨0, 0⟩, ⟨2, 2⟩⟩ : Dimension).max.x ∧
      (⟨⟨0, 0⟩, ⟨2, 2⟩⟩ : Dimension).max.y < (5 : Int) := by
  decide

/-- Claim C2 (failing input): the dimension built by `from_origin((1,1), 2, 2)`
has `field_amount() = 4`, yet its iterator terminates after yielding the five
positions (1,1), (1,2), (2,0), (2,1), (2,2), among them (2,0), which lies below
`origin.y` and hence outside the closed rectangle `[origin, max]`.  The source
iterator restarts y at 0 instead of `origin.y` when x advances. -/
theorem c2_iterator_failing_input :
    Dimension.from_origin ⟨1, 1⟩ 2 2 = some ⟨⟨1, 1⟩, ⟨2, 2⟩⟩ ∧
      Dimension.iterRun ⟨⟨1, 1⟩, ⟨2, 2⟩⟩ 20 =
        some [⟨1, 1⟩, ⟨1, 2⟩, ⟨2, 0⟩, ⟨2, 1⟩, ⟨2, 2⟩] ∧
      Dimension.field_amount ⟨⟨1, 1⟩, ⟨2, 2⟩⟩ = 4 ∧
      ([⟨1, 1⟩, ⟨1, 2⟩, ⟨2, 0⟩, ⟨2, 1⟩, ⟨2, 2⟩] : List Position).length = 5 ∧
      (⟨2, 0⟩ : Position).y < (⟨⟨1, 1⟩, ⟨2, 2⟩⟩ : Dimension).origin.y := by
  decide

/-- Claim C3 (counterexample): the iteration sequence of the 3x3 dimension at
the origin is not row-major in the sense the claim asserts — its very first
step goes from (0,0) to (0,1), advancing y at fixed x, so positions sharing a
y value are not enumerated consecutively with x increasing. -/
theorem c3_row_major_counterexample :
    Dimension.iterRun ⟨⟨0, 0⟩, ⟨2, 2⟩⟩ 20 = some pos33List ∧
      ¬ List.Chain' (specRowMajorAdj ⟨⟨0, 0⟩, ⟨2, 2⟩⟩) pos33List := by
  constructor
  · decide
  · intro hch
    unfold pos33List at hch
    have h01 := (List.chain'_cons.mp hch).1
    simp [specRowMajorAdj] at h01

/-- Claim C3 (amended): `Dimension::iter()` enumerates positions grouped by x
(column by column), not by y: whenever a run of the iterator terminates with
output `l`, the sequence `l` starts at `origin` and every adjacent pair of
yielded positions either keeps x and advances y by exactly 1, or — only once y
has reached `max.y` — advances x by exactly 1 and restarts y at 0 (not at
`origin.y`). -/
theorem c3_iter_column_order (d : Dimension) (fuel : Nat) (l : List Position)
    (h : d.iterRun fuel = some l) :
    l.head? = some d.origin ∧ List.Chain' (iterColumnAdj d.max) l := by
  cases fuel with
  | zero => simp [Dimension.iterRun, DimIter.collect] at h
  | succ n =>
    simp only [Dimension.iterRun, DimIter.collect, DimIter.new, DimIter.next] at h
    cases hcoll : DimIter.collect n ⟨d.origin, some d.origin, d.max⟩ with
    | none => rw [hcoll] at h; simp at h
    | some tl =>
      rw [hcoll] at h
      simp only [Option.some.injEq] at h
      subst h
      exact ⟨rfl, DimIter.collect_chain n ⟨d.origin, some d.origin, d.max⟩ d.origin tl rfl hcoll⟩

/-- Claim C3 (witness): the amended theorem applied to the 3x3 dimension at the
origin with fuel 20. -/
theorem c3_iter_column_order_witness :
    Dimension.iterRun ⟨⟨0, 0⟩, ⟨2, 2⟩⟩ 20 = some pos33List ∧
      pos33List.head? = some (⟨0, 0⟩ : Position) ∧
      List.Chain' (iterColumnAdj ⟨2, 2⟩) pos33List :=
  ⟨by decide, c3_iter_column_order ⟨⟨0, 0⟩, ⟨2, 2⟩⟩ 20 pos33List (by decide)⟩

/-- Claim C4 (confirmed): `Dimension::from_origin((0,0), 3, 3)` constructs the
dimension with origin (0,0) and max (2,2), and its iterator terminates after
yielding exactly (0,0),(0,1),(0,2),(1,0),(1,1),(1,2),(2,0),(2,1),(2,2). -/
theorem c4_concrete_iteration_3x3 :
    Dimension.from_origin ⟨0, 0⟩ 3 3 = some ⟨⟨0, 0⟩, ⟨2, 2⟩⟩ ∧
      Dimension.iterRun ⟨⟨0, 0⟩, ⟨2, 2⟩⟩ 20 = some pos33List := by
  decide

/-- Claim C5 (failing input): `resize((-1,5))` on the dimension with origin
(0,0) and max (2,2) replaces the whole origin by (-1,5) because (-1,5) is
lexicographically below (0,0); the origin's y-component increases from 0 to 5,
whereas the claim requires the component-wise minimum (-1,0) and that no origin
component ever increase. -/
theorem c5_resize_failing_input :
    Dimension.resize ⟨⟨0, 0⟩, ⟨2, 2⟩⟩ ⟨-1, 5⟩ = ⟨⟨-1, 5⟩, ⟨2, 2⟩⟩ ∧
      (⟨⟨0, 0⟩, ⟨2, 2⟩⟩ : Dimension).origin.y <
        (Dimension.resize ⟨⟨0, 0⟩, ⟨2, 2⟩⟩ ⟨-1, 5⟩).origin.y := by
  decide

/-- Claim C6 (failing input): the dimension reached from `from_origin((0,0),3,3)`
by the single public-API call `resize((-1,5))` violates the claimed invariant:
its max.y (= 2) is strictly below its origin.y (= 5). -/
theorem c6_invariant_failing_input :
    Dimension.from_origin ⟨0, 0⟩ 3 3 = some ⟨⟨0, 0⟩, ⟨2, 2⟩⟩ ∧
      (Dimension.resize ⟨⟨0, 0⟩, ⟨2, 2⟩⟩ ⟨-1, 5⟩).max.y <
        (Dimension.resize ⟨⟨0, 0⟩, ⟨2, 2⟩⟩ ⟨-1, 5⟩).origin.y := by
  decide

/-- Claim C7 (failing input): on a fixed-size board over the dimension with
origin (0,0) and max (2,2), `set_field((1,5), 42)` stores the value even though
(1,5) is outside the bounding rectangle (its y exceeds max.y): the subsequent
`get_field((1,5))` returns 42, not absent, because the containment test is
lexicographic. -/
theorem c7_fixed_board_failing_input :
    (Board.set_field (Board.new (T := Nat) ⟨⟨0, 0⟩, ⟨2, 2⟩⟩) ⟨1, 5⟩ 42).get_field ⟨1, 5⟩ =
        some 42 ∧
      (Board.set_field (Board.new (T := Nat) ⟨⟨0, 0⟩, ⟨2, 2⟩⟩) ⟨1, 5⟩ 42).resizeable = false ∧
      (⟨⟨0, 0⟩, ⟨2, 2⟩⟩ : Dimension).origin.x ≤ (1 : Int) ∧
      (1 : Int) ≤ (⟨⟨0, 0⟩, ⟨2, 2⟩⟩ : Dimension).max.x ∧
      (⟨⟨0, 0⟩, ⟨2, 2⟩⟩ : Dimension).max.y < (5 : Int) := by
  decide

/-- Claim C8 (confirmed): for every board started from `new` or
`new_resizeable` on a dimension whose origin is lexicographically at most its
max — as every dimension produced by the constructors is — and mutated by any
sequence of `set_field`, `clear_field` and `clear` operations, every key
present in the value mapping satisfies `contains_position` for the board's
current dimension. -/
theorem c8_board_keys_contained (T : Type) (d : Dimension) (rz : Bool)
    (ops : List (BoardOp T)) (p : Position) (v : T)
    (hd : d.origin.lexLe d.max)
    (hv : ((if rz then Board.new_resizeable d else Board.new d).applyOps ops).values p = some v) :
    ((if rz then Board.new_resizeable d else Board.new d).applyOps ops).dimension.contains_position
      p = true :=
  ((BoardInv.initial d rz hd).applyOps ops).2 p v hv

/-- Claim C8 (witness): a resizeable board over the 3x3 dimension after
`set_field((9,9), 1)` contains the key (9,9), and it is inside the resized
dimension. -/
theorem c8_board_keys_contained_witness :
    (⟨⟨0, 0⟩, ⟨2, 2⟩⟩ : Dimension).origin.lexLe (⟨⟨0, 0⟩, ⟨2, 2⟩⟩ : Dimension).max ∧
      ((if true then Board.new_resizeable (T := Nat) ⟨⟨0, 0⟩, ⟨2, 2⟩⟩
          else Board.new ⟨⟨0, 0⟩, ⟨2, 2⟩⟩).applyOps [BoardOp.setF ⟨9, 9⟩ 1]).values ⟨9, 9⟩ =
        some 1 ∧
      ((if true then Board.new_resizeable (T := Nat) ⟨⟨0, 0⟩, ⟨2, 2⟩⟩
          else Board.new ⟨⟨0, 0⟩, ⟨2, 2⟩⟩).applyOps
            [BoardOp.setF ⟨9, 9⟩ 1]).dimension.contains_position ⟨9, 9⟩ = true :=
  ⟨by decide, by rfl,
    c8_board_keys_contained Nat ⟨⟨0, 0⟩, ⟨2, 2⟩⟩ true [BoardOp.setF ⟨9, 9⟩ 1] ⟨9, 9⟩ 1
      (by decide) (by rfl)⟩

/-- Claim C9 (confirmed): `set_field(p, v)` followed by `get_field(p)` returns
`v` for every resizeable board and any `p`, and for every fixed-size board and
any `p` inside the per-axis bounding box of its dimension. -/
theorem c9_set_get_roundtrip (T : Type) (b : Board T) (p : Position) (v : T)
    (h : b.resizeable = true ∨
      (b.dimension.origin.x ≤ p.x ∧ p.x ≤ b.dimension.max.x ∧
        b.dimension.origin.y ≤ p.y ∧ p.y ≤ b.dimension.max.y)) :
    (b.set_field p v).get_field p = some v := by
  unfold Board.set_field
  split
  · simp [Board.get_field]
  · simp [Board.get_field]
  · rename_i hr hc
    rcases h with h | h
    · simp [hr] at h
    · have hc' := Dimension.box_contains b.dimension p h
      rw [hc] at hc'
      cases hc'

/-- Claim C9 (witness): the round trip on a resizeable board over the 3x3
dimension at the out-of-bounds position (9,9). -/
theorem c9_set_get_roundtrip_witness :
    ((Board.new_resizeable (T := Nat) ⟨⟨0, 0⟩, ⟨2, 2⟩⟩).resizeable = true ∨
      ((Board.new_resizeable (T := Nat) ⟨⟨0, 0⟩, ⟨2, 2⟩⟩).dimension.origin.x ≤ (9 : Int) ∧
        (9 : Int) ≤ (Board.new_resizeable (T := Nat) ⟨⟨0, 0⟩, ⟨2, 2⟩⟩).dimension.max.x ∧
        (Board.new_resizeable (T := Nat) ⟨⟨0, 0⟩, ⟨2, 2⟩⟩).dimension.origin.y ≤ (9 : Int) ∧
        (9 : Int) ≤ (Board.new_resizeable (T := Nat) ⟨⟨0, 0⟩, ⟨2, 2⟩⟩).dimension.max.y)) ∧
      ((Board.new_resizeable (T := Nat) ⟨⟨0, 0⟩, ⟨2, 2⟩⟩).set_field ⟨9, 9⟩ 5).get_field ⟨9, 9⟩ =
        some 5 :=
  ⟨Or.inl rfl,
    c9_set_get_roundtrip Nat (Board.new_resizeable ⟨⟨0, 0⟩, ⟨2, 2⟩⟩) ⟨9, 9⟩ 5 (Or.inl rfl)⟩

/-- Claim C10 (confirmed): the public API reaches a dimension whose max.y is
below its origin.y — `resize((-1,5))` on the dimension from
`from_origin((0,0),3,3)` yields origin (-1,5) and max (2,2) — and on it
`height()` computes the negative difference 2 - 5 + 1 = -2 and casts it to
`usize`, returning the enormous wrapped value 2^64 - 2 rather than failing;
`field_amount()` inherits the wrap, returning 2^64 - 8. -/
theorem c10_resize_wrap :
    Dimension.from_origin ⟨0, 0⟩ 3 3 = some ⟨⟨0, 0⟩, ⟨2, 2⟩⟩ ∧
      Dimension.resize ⟨⟨0, 0⟩, ⟨2, 2⟩⟩ ⟨-1, 5⟩ = ⟨⟨-1, 5⟩, ⟨2, 2⟩⟩ ∧
      (⟨⟨-1, 5⟩, ⟨2, 2⟩⟩ : Dimension).max.y < (⟨⟨-1, 5⟩, ⟨2, 2⟩⟩ : Dimension).origin.y ∧
      Dimension.height ⟨⟨-1, 5⟩, ⟨2, 2⟩⟩ = 2 ^ 64 - 2 ∧
      2 ^ 63 ≤ Dimension.height ⟨⟨-1, 5⟩, ⟨2, 2⟩⟩ ∧
      Dimension.field_amount ⟨⟨-1, 5⟩, ⟨2, 2⟩⟩ = 2 ^ 64 - 8 := by
  decide
